import Mathlib

/-!
Verification of the `wLogText` widget core of the Filters repository.

This file shallowly embeds the parts of `src/wlogtext.cpp`, `src/wlogtext.h`
(duplicated in `unnamed/part_000`) and `src/wlogtextprivate.h` that the
checked properties are about: the line store with its trimming cap, selection
and caret state, the find/search engine, the palette model, font setting and
the pixel/cell geometry maps.

Modelling conventions:
* `QString` text is `List Char`; `QString::indexOf` / `lastIndexOf` /
  `mid` / `left` are embedded as executable functions (`qIndexOf`,
  `qLastIndexOf`, `qmid`, `qleft`) following the documented Qt semantics
  (negative `from` counts from the end of the string).
* C++ `int` values are Lean `Int`; `/` on C++ ints is `Int.tdiv`
  (truncation towards zero); conversion to the unsigned 16-bit types used
  for style ids / pixmap ids is explicit `% 2 ^ 16` arithmetic.
* Potential out-of-range container accesses (`items[i]`, `styles.last()`)
  are made observable by returning `Option`: a `none` result marks an
  access outside the live range of the underlying `std::vector`/`QList`.
* Signals are modelled where a property mentions them: emissions of
  `trimmed(n)` are appended to a `trimmedLog` field.  Repaint requests
  (`updateCellRange`, `viewport()->update()`), clipboard sync, and the
  scrollbar adjustments (`setContentSize`, `ensureCaretVisible`,
  `m_maxVScroll`) touch only the platform view layer and are outside the
  document state; the geometry maps are modelled separately over an explicit
  geometry record, exactly as the widget splits them.
-/

/-- `INT_MAX` for the 32-bit `lineNumber_t` (`std::numeric_limits<int32_t>::max()`). -/
def int32Max : Int := 2 ^ 31 - 1

/-- C++ `int` division: truncation towards zero. -/
def cppDiv (a b : Int) : Int := Int.tdiv a b

/-- Reinterpretation of an unbounded integer as a two's-complement `int32`,
used to make the overflow check in `setMaxLogLines` meaningful. -/
def wrap32 (x : Int) : Int := (x + 2 ^ 31) % 2 ^ 32 - 2 ^ 31

/-- Conversion of a C++ `int` to `qint16` (two's complement wrap),
as happens storing `m_pixmapId`. -/
def wrap16 (x : Int) : Int := (x + 2 ^ 15) % 2 ^ 16 - 2 ^ 15

/-- Qt `qBound(min, val, max)` = `qMax(min, qMin(max, val))`. -/
def qBound (lo v hi : Int) : Int := max lo (min v hi)

/-- Character comparison under a `Qt::CaseSensitivity` flag
(`true` = `Qt::CaseSensitive`). -/
def chEq (cs : Bool) (a b : Char) : Bool :=
  if cs then a == b else a.toLower == b.toLower

/-- Does `needle` match at the head of `hay` (under case flag `cs`)? -/
def prefixMatch (cs : Bool) : List Char → List Char → Bool
  | [], _ => true
  | _ :: _, [] => false
  | a :: as, b :: bs => chEq cs a b && prefixMatch cs as bs

/-- Scan indices `i, i+1, …` (bounded by `fuel`) for the first satisfying `p`. -/
def scanFrom (p : Nat → Bool) : Nat → Nat → Option Nat
  | _, 0 => none
  | i, fuel + 1 => if p i then some i else scanFrom p (i + 1) fuel

/-- Scan indices `i, i-1, …, 0` for the first (i.e. largest) satisfying `p`. -/
def scanDownFrom (p : Nat → Bool) : Nat → Option Nat
  | 0 => if p 0 then some 0 else none
  | i + 1 => if p (i + 1) then some (i + 1) else scanDownFrom p i

/-- `QString(hay).indexOf(needle, start, cs)`: index of the first occurrence of
`needle` at or after `start`, `-1` if none.  A negative `start` counts from the
end of the string (floored at 0). -/
def qIndexOf (needle hay : List Char) (start : Int) (cs : Bool) : Int :=
  let size : Int := hay.length
  let f : Int := if start < 0 then max (start + size) 0 else start
  if f > size then -1
  else
    match scanFrom (fun i => prefixMatch cs needle (hay.drop i)) f.toNat
        (hay.length + 1 - f.toNat) with
    | some i => (i : Int)
    | none => -1

/-- `QString(hay).lastIndexOf(needle, start, cs)`: index of the last occurrence
starting at or before `start` (clamped so the match fits), `-1` if none.
A negative `start` counts from the end of the string. -/
def qLastIndexOf (needle hay : List Char) (start : Int) (cs : Bool) : Int :=
  let size : Int := hay.length
  let f : Int := if start < 0 then start + size else start
  if f < 0 ∨ f ≥ size ∨ size < (needle.length : Int) then -1
  else
    match scanDownFrom (fun i => prefixMatch cs needle (hay.drop i))
        (min f (size - needle.length)).toNat with
    | some i => (i : Int)
    | none => -1

/-- `QString::mid(pos, n)` (`n < 0` means "to the end"). -/
def qmid (t : List Char) (pos n : Int) : List Char :=
  if pos > (t.length : Int) then []
  else if pos < 0 then
    if n < 0 ∨ n + pos ≥ (t.length : Int) then t
    else if n + pos ≤ 0 then []
    else t.take (n + pos).toNat
  else if n < 0 then t.drop pos.toNat
  else (t.drop pos.toNat).take n.toNat

/-- `QString::left(n)`: the whole string when `n < 0` or `n ≥ size`. -/
def qleft (t : List Char) (n : Int) : List Char :=
  if n < 0 ∨ n ≥ (t.length : Int) then t else t.take n.toNat

/-- The `cell` value type of `wlogtext.h`: a (line, column) position. -/
structure Cell where
  line : Int
  col : Int
  deriving DecidableEq, Repr

/-- `cell::operator<=>`: line-major, then column (screen order). -/
def Cell.ltb (a b : Cell) : Bool :=
  a.line < b.line || (a.line == b.line && a.col < b.col)

/-- `std::min` on cells via the spaceship order. -/
def Cell.minc (a b : Cell) : Cell := if Cell.ltb b a then b else a

/-- `std::max` on cells via the spaceship order. -/
def Cell.maxc (a b : Cell) : Cell := if Cell.ltb a b then b else a

/-- A `logTextItem`: line text, style id (`uint16_t`), gutter pixmap id
(`qint16`, `-1` = none). -/
structure LItem where
  text : List Char
  styleId : Nat
  pixmapId : Int
  deriving DecidableEq, Repr

/-- Default-constructed placeholder item (used only to totalize reads the C++
performs on indices it has itself verified to be in range). -/
def LItem.dflt : LItem := ⟨[], 0, -1⟩

/-- Text of `items[i]` for an index the source guarantees in range. -/
def textOfIdx (items : List LItem) (i : Nat) : List Char :=
  ((items.get? i).getD LItem.dflt).text

/-- The observable widget document state: the line store of `wLogText`
(`items`, counters, cap configuration) and the selection/caret state of
`wLogTextPrivate`. -/
structure WState where
  items : List LItem
  m_lineCount : Int
  m_maxLineChars : Int
  maximumLogLines : Int
  maximumLogLinesSlacked : Int
  finalized : Bool
  selecting : Bool
  selectionOrigin : Cell
  selectTop : Cell
  selectBottom : Cell
  caretPosition : Cell
  softLocked : Bool
  hardLocked : Bool
  updatesNeeded : Nat
  trimmedLog : List Int
  deriving DecidableEq, Repr

/-- Field defaults from `wlogtext.h` / `wlogtextprivate.h`. -/
def initState : WState where
  items := []
  m_lineCount := 0
  m_maxLineChars := 0
  maximumLogLines := 0
  maximumLogLinesSlacked := int32Max
  finalized := false
  selecting := false
  selectionOrigin := ⟨0, 0⟩
  selectTop := ⟨0, 0⟩
  selectBottom := ⟨0, 0⟩
  caretPosition := ⟨0, 0⟩
  softLocked := false
  hardLocked := false
  updatesNeeded := 0
  trimmedLog := []

/-- `wLogText::validLineNumber`. -/
def validLineNumber (s : WState) (lineNo : Int) : Bool :=
  0 ≤ lineNo && lineNo < s.m_lineCount

/-- `wLogText::setUpdatesNeeded`: monotone-max coalescing of the pending
update level (the deferred-event posting is view-layer only). -/
def setUpdatesNeededM (level : Nat) (s : WState) : WState :=
  if level > s.updatesNeeded then { s with updatesNeeded := level } else s

/-- Maximum text length over `items`, as computed by the
`std::ranges::max_element` rescan in `trimLines` / `clear(top, count)`. -/
def maxTextLen (items : List LItem) : Int :=
  items.foldl (fun acc it => max acc (it.text.length : Int)) 0

/-- `wLogTextPrivate::setSelection(const cell&, const cell&)`
(the repaint of the affected cell range is view-layer only). -/
def setSelection2 (a b : Cell) (s : WState) : WState :=
  let s := { s with selectionOrigin := a }
  if a = b then { s with selecting := false }
  else if Cell.ltb a b then
    { s with selectTop := a, selectBottom := b, selecting := true }
  else
    { s with selectTop := b, selectBottom := a, selecting := true }

/-- `wLogTextPrivate::updateCaretPos` (both branches store the new position;
the difference is repaint-only). -/
def updateCaretPos (pos : Cell) (s : WState) : WState :=
  { s with caretPosition := pos }

/-- `wLogText::clearSelection`: sets `selecting = false`; the body of its
`if (d->selecting)` is dead code after that assignment. -/
def clearSelectionM (s : WState) : WState := { s with selecting := false }

/-- `wLogText::trimLines` (wlogtext.cpp:1456-1490).  Removes the prefix in
excess of `maximumLogLines`, recounts, rescans `m_maxLineChars`, shifts or
drops the selection, and emits `trimmed(toRemove)`. -/
def trimLines (s : WState) : WState :=
  if s.maximumLogLines > 0 ∧ (s.items.length : Int) > s.maximumLogLines then
    let toRemove : Int := (s.items.length : Int) - s.maximumLogLines
    let items' := s.items.drop toRemove.toNat
    let s1 := { s with
      items := items'
      m_lineCount := (items'.length : Int)
      m_maxLineChars := if items'.length = 0 then 0 else maxTextLen items' }
    let s2 :=
      if s1.selecting then
        let st := if s1.selectTop.line < toRemove then (⟨0, 0⟩ : Cell)
                  else ⟨s1.selectTop.line - toRemove, s1.selectTop.col⟩
        let sb := if s1.selectBottom.line < toRemove then (⟨0, 0⟩ : Cell)
                  else ⟨s1.selectBottom.line - toRemove, s1.selectBottom.col⟩
        let s1 := { s1 with selectTop := st, selectBottom := sb }
        if st = sb then clearSelectionM s1 else s1
      else s1
    { s2 with trimmedLog := s2.trimmedLog ++ [toRemove] }
  else s

/-- `wLogText::append(logTextItem*)` (wlogtext.h:692-700).  Returns the value
of the `return m_lineCount++` expression together with the new state.  Note
the increment happens after `trimLines()` may have reset `m_lineCount`. -/
def appendItem (it : LItem) (s : WState) : Int × WState :=
  let s := { s with
    m_maxLineChars := max s.m_maxLineChars (it.text.length : Int)
    items := s.items ++ [it] }
  let s := setUpdatesNeededM 1 s
  let s := if s.maximumLogLines ≠ 0 ∧ s.m_lineCount ≥ s.maximumLogLinesSlacked
    then trimLines s else s
  (s.m_lineCount, { s with m_lineCount := s.m_lineCount + 1 })

/-- `wLogText::setMaxLogLines` (wlogtext.cpp:1436-1453). -/
def setMaxLogLines (mll : Int) (s : WState) : WState :=
  let s := { s with maximumLogLines := mll }
  if mll ≤ 0 then { s with maximumLogLinesSlacked := int32Max }
  else
    let slacked := wrap32 (mll + qBound 10 (cppDiv mll 10) 1000)
    let s := { s with
      maximumLogLinesSlacked := if slacked ≤ mll then int32Max else slacked }
    trimLines s

/-- `wLogText::clear()` (wlogtext.cpp:1592-1604). -/
def clearAll (s : WState) : WState :=
  { s with
    selecting := false
    items := []
    m_lineCount := 0
    m_maxLineChars := 0
    softLocked := false
    hardLocked := false
    caretPosition := ⟨0, 0⟩ }

/-- `wLogText::clear(int top, int count)` (wlogtext.cpp:1607-1631). -/
def clearRange (top count : Int) (s : WState) : WState :=
  let s := { s with selecting := false }
  if top < 0 ∨ count < 1 ∨ top ≥ s.m_lineCount then s
  else
    let count := if top + count > s.m_lineCount then s.m_lineCount - top else count
    let items' := s.items.take top.toNat ++ s.items.drop (top.toNat + count.toNat)
    { s with
      items := items'
      m_lineCount := (items'.length : Int)
      m_maxLineChars := if items'.length = 0 then 0 else maxTextLen items'
      caretPosition := ⟨0, 0⟩ }

/-- A fold over a given number of appends of the same text/style reading,
used to express "a sequence of appends" scenarios. -/
def appendSeq (xs : List LItem) (s : WState) : WState :=
  xs.foldl (fun st it => (appendItem it st).2) s

/-- Items numbered by style id, to keep track of original append indices. -/
def numberedItems (n : Nat) : List LItem :=
  (List.range n).map fun i => ⟨[], i, -1⟩

/-- `items[i]` on the `std::vector` line store: `none` marks an access
outside the live range (undefined behaviour in the C++). -/
def getItem? (items : List LItem) (i : Int) : Option LItem :=
  if i < 0 then none else items.get? i.toNat

/-- `wLogText::item(lineNumber_t)` (wlogtext.h:733-737): clamps an index at
or above `m_lineCount` to `m_lineCount - 1`, then reads the vector. -/
def itemAt (s : WState) (lineNo : Int) : Option LItem :=
  let ln := if lineNo ≥ s.m_lineCount then s.m_lineCount - 1 else lineNo
  getItem? s.items ln

/-- `wLogText::length(lineNumber_t)` (wlogtext.cpp:1424-1427). -/
def lengthAt (s : WState) (lineNo : Int) : Option Int :=
  if validLineNumber s lineNo then
    (getItem? s.items lineNo).map fun it => (it.text.length : Int)
  else some 0

/-- `wLogText::setLineStyle` (wlogtext.cpp:1886-1894): reads `items[line]`
with no range check; storing the style converts `int` to `uint16_t`. -/
def setLineStyleM (line style : Int) (s : WState) : Option WState :=
  (getItem? s.items line).map fun it =>
    if (it.styleId : Int) ≠ style then
      let it' := { it with styleId := (style % 2 ^ 16).toNat }
      setUpdatesNeededM 2 { s with items := s.items.set line.toNat it' }
    else s

/-- `wLogText::setLinePixmap` (wlogtext.cpp:1801-1812): guarded by
`validLineNumber`; the update requests are view-layer only. -/
def setLinePixmapM (lineNo pixmapId : Int) (s : WState) : Option WState :=
  if validLineNumber s lineNo then
    (getItem? s.items lineNo).map fun it =>
      let it' := { it with pixmapId := wrap16 pixmapId }
      { s with items := s.items.set lineNo.toNat it' }
  else some s

/-- `wLogText::clearLinePixmap` (wlogtext.cpp:1787-1798). -/
def clearLinePixmapM (lineNo : Int) (s : WState) : Option WState :=
  if validLineNumber s lineNo then
    (getItem? s.items lineNo).map fun it =>
      let it' := { it with pixmapId := (-1 : Int) }
      { s with items := s.items.set lineNo.toNat it' }
  else some s

/-- `wLogText::selectAll` (wlogtext.cpp:1120-1131); clipboard sync and the
`copyAvailable` signal are outside the document state. -/
def selectAllM (s : WState) : WState :=
  if s.m_lineCount ≠ 0 then
    { s with
      selecting := true
      selectTop := ⟨0, 0⟩
      selectBottom := ⟨s.m_lineCount, 0⟩ }
  else s

/-- `wLogText::selectedText` (wlogtext.cpp:1185-1222). -/
def selectedText (s : WState) : List Char :=
  if !s.selecting then []
  else
    let line0 : Int := s.selectTop.line
    let last0 : Int := min s.selectBottom.line s.m_lineCount
    let line : Int := if last0 < line0 then last0 else line0
    let last : Int := if last0 < line0 then line0 else last0
    if line = last then
      qmid (textOfIdx s.items line.toNat) s.selectTop.col
        (s.selectBottom.col - s.selectTop.col)
    else
      let nItems : Int := s.items.length
      let itIdx : Nat := if line < nItems then line.toNat else s.items.length
      let endIdx : Nat :=
        if line < nItems then
          (if last < nItems then last.toNat else s.items.length)
        else s.items.length
      let hasFirstPartial : Bool :=
        itIdx ≠ s.items.length && s.selectTop.col > 0
      let selText : List Char :=
        if hasFirstPartial then
          qmid (textOfIdx s.items itIdx) s.selectTop.col (-1) ++ ['\n']
        else []
      let itIdx : Nat := if hasFirstPartial then itIdx + 1 else itIdx
      let selText :=
        ((s.items.drop itIdx).take (endIdx - itIdx)).foldl
          (fun acc it => acc ++ it.text ++ ['\n']) selText
      if endIdx ≠ s.items.length ∧ last < s.m_lineCount then
        selText ++ qleft (textOfIdx s.items endIdx) s.selectBottom.col
      else selText

/-- `wLogText::toPlainText(QLatin1Char)` (wlogtext.cpp:1224-1230). -/
def toPlainText (sep : Char) (s : WState) : List Char :=
  s.items.foldl (fun acc it => acc ++ it.text ++ [sep]) []

/-- `wLogTextPrivate::prepareFind` (wlogtext.cpp:1753-1766).  `none` means
the find fails immediately (invalid start line on a forward search). -/
def prepareFind (s : WState) (forward : Bool) (at? : Option Cell) : Option Cell :=
  let pos := match at? with
    | some a => a
    | none => s.caretPosition
  let pos? : Option Cell :=
    if validLineNumber s pos.line then some pos
    else if forward then none
    else some ⟨s.m_lineCount - 1, -1⟩
  pos?.map fun p =>
    let lineLen : Int := (textOfIdx s.items p.line.toNat).length
    if p.col ≥ lineLen then ⟨p.line, lineLen - 1⟩ else p

/-- Forward scan loop of `wLogText::find(QString)` (wlogtext.cpp:1649-1660):
walks the item list from the start line, searching from `col` on the first
line and from column 0 afterwards. -/
def fwdScanPlain (cs : Bool) (str : List Char) :
    List LItem → Int → Int → Option (Int × Int)
  | [], _, _ => none
  | it :: rest, ln, col =>
    let c := qIndexOf str it.text col cs
    if c ≠ -1 then some (ln, c) else fwdScanPlain cs str rest (ln + 1) 0

/-- Backward scan loop of `wLogText::find(QString)` (wlogtext.cpp:1661-1673):
the iterator loop `for (end = items.cbegin(); it != end; --it, --lineNumber)`
stops when the iterator reaches `begin`, so index 0 is never searched. -/
def bwdScanPlain (cs : Bool) (str : List Char) (items : List LItem) :
    Nat → Int → Option (Int × Int)
  | 0, _ => none
  | i + 1, col =>
    let c := qLastIndexOf str (textOfIdx items (i + 1)) col cs
    if c ≠ -1 then some ((i + 1 : Nat), c)
    else bwdScanPlain cs str items i (-1)

/-- Forward scan loop of `wLogText::find(QRegExp)` (wlogtext.cpp:1718-1730)
for a pattern matching a literal string: `for (auto const& item : items)`
iterates from the FIRST item of the store, while the `line` counter starts at
the requested start line. -/
def fwdScanRe (cs : Bool) (pat : List Char) :
    List LItem → Int → Int → Option (Int × Int)
  | [], _, _ => none
  | it :: rest, ln, col =>
    let c := qIndexOf pat it.text col cs
    if c ≠ -1 then some (ln, c) else fwdScanRe cs pat rest (ln + 1) 0

/-- Backward scan loop of `wLogText::find(QRegExp)` (wlogtext.cpp:1731-1742):
`for (auto it = items.cbegin() + line; line >= 0; --it, --line)` searches the
start line down to and including index 0. -/
def bwdScanRe (cs : Bool) (pat : List Char) (items : List LItem) :
    Nat → Int → Option (Int × Int)
  | 0, col =>
    let c := qLastIndexOf pat (textOfIdx items 0) col cs
    if c ≠ -1 then some ((0 : Nat), c) else none
  | i + 1, col =>
    let c := qLastIndexOf pat (textOfIdx items (i + 1)) col cs
    if c ≠ -1 then some ((i + 1 : Nat), c)
    else bwdScanRe cs pat items i (-1)

/-- Result of a find call: return value, resulting state, and the final value
of the caller's `cell *at` out-parameter (when one was passed). -/
structure FindRes where
  ok : Bool
  st : WState
  outAt : Option Cell
  deriving DecidableEq, Repr

/-- Common success tail of both find overloads (wlogtext.cpp:1653-1657 /
1665-1669 and 1674-1679): caret to match end (forward) or match start
(backward), selection over the match, out-position = match start.
`ensureCaretVisible` is a scroll-only effect. -/
def findApplyMatch (forward : Bool) (len : Nat) (lc : Int × Int)
    (at? : Option Cell) (s : WState) : FindRes :=
  let span : Int := lc.2 + len
  let s :=
    if forward then
      let s := updateCaretPos ⟨lc.1, span⟩ s
      setSelection2 ⟨lc.1, lc.2⟩ s.caretPosition s
    else
      let s := updateCaretPos ⟨lc.1, lc.2⟩ s
      setSelection2 s.caretPosition ⟨lc.1, span⟩ s
  ⟨true, s, at?.map fun _ => ⟨lc.1, lc.2⟩⟩

/-- `wLogText::find(const QString&, cell*, Qt::CaseSensitivity, bool)`
(wlogtext.cpp:1634-1680). -/
def findPlain (str : List Char) (at? : Option Cell) (cs : Bool)
    (forward : Bool) (s : WState) : FindRes :=
  if s.m_lineCount = 0 then ⟨false, s, at?⟩
  else
    match prepareFind s forward at? with
    | none => ⟨false, s, at?⟩
    | some pos =>
      let res :=
        if forward then
          fwdScanPlain cs str (s.items.drop pos.line.toNat) pos.line pos.col
        else bwdScanPlain cs str s.items pos.line.toNat pos.col
      match res with
      | none => ⟨false, s, at?⟩
      | some lc => findApplyMatch forward str.length lc at? s

/-- `wLogText::find(const QRegExp&, cell*, bool)` (wlogtext.cpp:1702-1750),
instantiated at a valid pattern matching exactly the literal string `pat`
(so `indexOf(re, n)` agrees with `indexOf(pat, n)` and `matchedLength()`
is `pat.length`). -/
def findPatternLit (pat : List Char) (at? : Option Cell) (cs : Bool)
    (forward : Bool) (s : WState) : FindRes :=
  if s.m_lineCount = 0 then ⟨false, s, at?⟩
  else
    match prepareFind s forward at? with
    | none => ⟨false, s, at?⟩
    | some pos =>
      let res :=
        if forward then fwdScanRe cs pat s.items pos.line pos.col
        else bwdScanRe cs pat s.items pos.line.toNat pos.col
      match res with
      | none => ⟨false, s, at?⟩
      | some lc => findApplyMatch forward pat.length lc at? s

/-- Qt `QFont` as far as the widget inspects or mutates it.
`infoFixedPitch` models what `QFontInfo(font).fixedPitch()` reports for the
matched font; colors elsewhere are opaque `Nat` tokens. -/
structure QFont where
  infoFixedPitch : Bool
  fixedPitchFlag : Bool
  kerning : Bool
  pointSize : Int
  italic : Bool
  bold : Bool
  underline : Bool
  overline : Bool
  strikeOut : Bool
  deriving DecidableEq, Repr

/-- `logTextPaletteEntry`: three colors plus the `textAttributes` bit set
(`attrItalic = 0x01`, `attrBold = 0x02`, `attrUnderline = 0x04`,
`attrOverLine = 0x08`, `attrStrikeOut = 0x10`). -/
structure PaletteEntry where
  textColor : Nat
  backgroundColor : Nat
  clBackgroundColor : Nat
  attributes : Nat
  deriving DecidableEq, Repr

/-- `logTextPalette`: a named ordered sequence of entries. -/
structure LogPalette where
  name : String
  styles : List PaletteEntry
  deriving DecidableEq, Repr

/-- The size/colors constructor (wlogtext.cpp:1961-1966):
`styles.fill(entry(defText, defBack, defClBack), std::max(ns, 1))`. -/
def LogPalette.ofSize (nm : String) (ns : Int) (defText defBack defClBack : Nat) :
    LogPalette :=
  ⟨nm, List.replicate (max ns 1).toNat ⟨defText, defBack, defClBack, 0⟩⟩

/-- `logTextPalette::addStyle` (wlogtext.cpp:1975-1980): appends and returns
the new entry's id. -/
def LogPalette.addStyle (p : LogPalette) (e : PaletteEntry) : Nat × LogPalette :=
  (p.styles.length, { p with styles := p.styles ++ [e] })

/-- `logTextPalette::style` (wlogtext.cpp:1989-1992):
`(id >= styles.count()) ? styles.last() : styles[id]`.  `none` marks the
out-of-range `last()` on an empty list. -/
def LogPalette.styleAt (p : LogPalette) (id : Nat) : Option PaletteEntry :=
  if id ≥ p.styles.length then p.styles.getLast? else p.styles.get? id

/-- `styleItem` of `wlogtextprivate.h`: paint-ready font plus colors. -/
structure StyleItem where
  font : QFont
  textColor : Nat
  backgroundColor : Nat
  clBackgroundColor : Nat
  deriving DecidableEq, Repr

/-- One entry of the `activatedPalette` constructor loop
(wlogtext.cpp:2084-2101): applies the entry's attribute bits to the base
font and copies the colors. -/
def mkStyleItem (f : QFont) (pe : PaletteEntry) : StyleItem where
  font :=
    { f with
      italic := pe.attributes &&& 1 ≠ 0
      bold := pe.attributes &&& 2 ≠ 0
      underline := pe.attributes &&& 4 ≠ 0
      overline := pe.attributes &&& 8 ≠ 0
      strikeOut := pe.attributes &&& 16 ≠ 0 }
  textColor := pe.textColor
  backgroundColor := pe.backgroundColor
  clBackgroundColor := pe.clBackgroundColor

/-- `activatedPalette`: the paint-ready style array. -/
structure ActivatedPalette where
  styles : List StyleItem
  deriving DecidableEq, Repr

/-- `activatedPalette::activatedPalette(const QFont&, logTextPalette&)`
(wlogtext.cpp:2080-2103): `nStyles = std::max(1, p.numStyles())` entries,
each built from `p.style(i)` (the `getD` default is only reachable through
the undefined `styles.last()` of an empty source palette). -/
def ActivatedPalette.ofPalette (f : QFont) (p : LogPalette) : ActivatedPalette :=
  ⟨(List.range (max 1 p.styles.length)).map fun i =>
    mkStyleItem f ((p.styleAt i).getD ⟨0, 0, 0, 0⟩)⟩

/-- `activatedPalette::style` (wlogtextprivate.h):
`styles[(styleId < numStyles()) ? styleId : 0]`; `none` marks an
out-of-range vector access. -/
def ActivatedPalette.styleAt (a : ActivatedPalette) (id : Nat) : Option StyleItem :=
  a.styles.get? (if id < a.styles.length then id else 0)

/-- Font/palette portion of the widget state mutated by `setFont` and
`activatePalette`. -/
structure FontState where
  widgetFont : QFont
  fontBaseSize : Int
  m_textLineHeight : Int
  m_characterWidth : Int
  textLineBaselineOffset : Int
  palettes : List (String × LogPalette)
  activatedPaletteName : String
  activePalette : Option ActivatedPalette
  updatesNeeded : Nat
  deriving DecidableEq, Repr

/-- `wLogTextPrivate::adjustTextMetrics` (wlogtext.cpp:543-563), with the
`QFontMetrics` measurements supplied as oracles: line height from
`lineSpacing()`, character width reset to 0 ("unknown until painted"),
baseline offset from `descent()`.  The emitted `lineSpacingChange` signal and
the scrollbar updates are view-layer only. -/
def adjustTextMetrics (fmLineSpacing fmDescent : QFont → Int)
    (s : FontState) : FontState :=
  { s with
    m_textLineHeight := fmLineSpacing s.widgetFont
    m_characterWidth := 0
    textLineBaselineOffset := fmDescent s.widgetFont }

/-- `wLogTextPrivate::activatePalette(const QString&)`
(wlogtext.cpp:1339-1361). -/
def activatePaletteM (name : String) (s : FontState) : Bool × FontState :=
  if name ≠ "" ∧ (s.palettes.lookup name).isNone then (false, s)
  else if name = "" ∧ s.activePalette.isNone then (false, s)
  else
    let s := if name ≠ "" then { s with activatedPaletteName := name } else s
    let pal := (s.palettes.lookup s.activatedPaletteName).getD ⟨"", []⟩
    let act := some (ActivatedPalette.ofPalette s.widgetFont pal)
    (true, { s with activePalette := act })

/-- `wLogText::setFont(QFont)` (wlogtext.cpp:597-612).  A font whose
`QFontInfo` is not fixed-pitch is rejected before any state is touched
(`qWarning` then `return`).  Otherwise the adjusted font is installed, the
metrics remeasured and the current palette reactivated
(`ensureCaretVisible` is scroll-only; `setUpdatesNeeded(updateFull)`). -/
def setFontM (fmLineSpacing fmDescent : QFont → Int) (font : QFont)
    (s : FontState) : FontState :=
  if !font.infoFixedPitch then s
  else
    let font := { font with kerning := false, fixedPitchFlag := true }
    let s := { s with widgetFont := font, fontBaseSize := font.pointSize }
    let s := adjustTextMetrics fmLineSpacing fmDescent s
    let s := (activatePaletteM "" s).2
    if 2 > s.updatesNeeded then { s with updatesNeeded := 2 } else s

/-- The geometry/metrics state read by the coordinate maps: private metrics
(`wlogtextprivate.h`) plus the two scrollbar positions and the line count. -/
structure GeomState where
  m_characterWidth : Int
  m_textLineHeight : Int
  m_gutterOffset : Int
  vScrollValue : Int
  hScrollValue : Int
  m_lineCount : Int
  deriving DecidableEq, Repr

/-- A `QPoint` (pixel coordinates). -/
structure QPointM where
  x : Int
  y : Int
  deriving DecidableEq, Repr

/-- `wLogTextPrivate::cellToPoint` (wlogtext.cpp:1528-1533). -/
def cellToPoint (g : GeomState) (c : Cell) : QPointM :=
  ⟨c.col * g.m_characterWidth + g.m_gutterOffset, c.line * g.m_textLineHeight⟩

/-- `wLogTextPrivate::inTheGutter` (wlogtext.cpp:1536-1539). -/
def inTheGutter (g : GeomState) (x : Int) : Bool := x < g.m_gutterOffset

/-- `wLogTextPrivate::xToCharColumn` (wlogtext.cpp:1542-1549). -/
def xToCharColumn (g : GeomState) (x : Int) : Int :=
  if g.m_characterWidth ≠ 0 then
    (if inTheGutter g x then 0
     else cppDiv (x - g.m_gutterOffset) g.m_characterWidth + g.hScrollValue)
  else 0

/-- `wLogTextPrivate::yToLine` (wlogtext.cpp:1552-1555). -/
def yToLine (g : GeomState) (y : Int) : Int :=
  cppDiv (g.vScrollValue + max y 0) g.m_textLineHeight

/-- `wLogText::pointToCell` (wlogtext.cpp:85-88). -/
def pointToCell (g : GeomState) (p : QPointM) : Cell :=
  ⟨min (yToLine g p.y) g.m_lineCount, xToCharColumn g p.x⟩

/-- Sample two-line document state used by witnesses. -/
def sampleState : WState :=
  { initState with
    items := [⟨['a', 'b'], 0, -1⟩, ⟨['c'], 1, -1⟩]
    m_lineCount := 2 }

/-- Sample fonts and font state used by witnesses. -/
def sampleFixedFont : QFont := ⟨true, true, false, 12, false, false, false, false, false⟩

/-- A font whose `QFontInfo` reports it is not fixed pitch. -/
def sampleVarFont : QFont := ⟨false, false, true, 14, false, false, false, false, false⟩

/-- Font state of a freshly constructed widget (default palette registered by
the `wLogTextPrivate` constructor, wlogtext.cpp:98-106; colors are opaque
tokens). -/
def sampleFontState : FontState where
  widgetFont := sampleFixedFont
  fontBaseSize := 12
  m_textLineHeight := 0
  m_characterWidth := 0
  textLineBaselineOffset := 0
  palettes := [("default", LogPalette.ofSize "default" 1 0 1 2)]
  activatedPaletteName := "default"
  activePalette := none
  updatesNeeded := 0

/-- A palette built as the source allows: sized constructor with one default
entry, then `addStyle` of a distinguishable second entry. -/
def paletteTwo : LogPalette :=
  ((LogPalette.ofSize "p" 1 0 1 2).addStyle ⟨7, 8, 9, 0⟩).2

/-- Geometry with a non-zero vertical scrollbar position. -/
def geomScrolled : GeomState := ⟨8, 10, 2, 10, 0, 1⟩

/-- The store after `setMaxLogLines(100)` and 111 appends (items carry their
original append index in `styleId`). -/
def scenario111 : WState := appendSeq (numberedItems 111) (setMaxLogLines 100 initState)

/-- The store after `setMaxLogLines(100)` and 115 appends. -/
def scenario115 : WState := appendSeq (numberedItems 115) (setMaxLogLines 100 initState)

/-- Two-line buffer separating the two find overloads. -/
def overloadState : WState :=
  { initState with
    items := [⟨['x', 'y', 'z'], 0, -1⟩, ⟨['a', 'b', 'c'], 0, -1⟩]
    m_lineCount := 2 }

/-- Columns at which `str` occurs in line text `t` (all `i ≤ t.length` with a
prefix match of `str` at `t.drop i`). -/
def lineOccs (cs : Bool) (str t : List Char) : List Nat :=
  (List.range (t.length + 1)).filter (fun i => prefixMatch cs str (t.drop i))

/-- Occurrences of `str` in an item list, as (line, column) pairs, lines
numbered from `base`. -/
def occListAux (cs : Bool) (str : List Char) : List LItem → Nat → List (Nat × Nat)
  | [], _ => []
  | it :: rest, ln =>
    (lineOccs cs str it.text).map (fun c => (ln, c)) ++ occListAux cs str rest (ln + 1)

/-- All occurrences of `str` in the buffer, in scan order. -/
def occList (cs : Bool) (str : List Char) (items : List LItem) : List (Nat × Nat) :=
  occListAux cs str items 0

/-- Buffer whose only occurrence of "a" is the final character of its line. -/
def rematchState : WState :=
  { initState with items := [⟨['b', 'a'], 0, -1⟩], m_lineCount := 1 }

/-- Buffer for the C5 witness: single line "xy", unique occurrence of "x" at
(0,0) ending before the end of the line. -/
def findWitState : WState :=
  { initState with items := [⟨['x', 'y'], 0, -1⟩], m_lineCount := 1 }

set_option maxRecDepth 100000

/-- C8: a `setFont` request with a font that is not fixed-pitch returns
without changing any observable state: the stored font, the derived metrics
and the active palette are exactly what they were before the call. -/
theorem setFont_non_fixed_pitch_noop (ls ds : QFont → Int) (f : QFont)
    (s : FontState) (h : f.infoFixedPitch = false) :
    setFontM ls ds f s = s ∧
    (setFontM ls ds f s).widgetFont = s.widgetFont ∧
    (setFontM ls ds f s).m_textLineHeight = s.m_textLineHeight ∧
    (setFontM ls ds f s).m_characterWidth = s.m_characterWidth ∧
    (setFontM ls ds f s).activePalette = s.activePalette := by
  simp [setFontM, h]

/-- Witness for C8 at a concrete non-fixed-pitch font and state. -/
theorem setFont_non_fixed_pitch_noop_witness :
    sampleVarFont.infoFixedPitch = false ∧
    setFontM (fun _ => 10) (fun _ => 2) sampleVarFont sampleFontState =
      sampleFontState :=
  ⟨rfl, (setFont_non_fixed_pitch_noop (fun _ => 10) (fun _ => 2) sampleVarFont
    sampleFontState rfl).1⟩

/-- C10: `clear(top, count)` always turns the selection off — even when the
arguments are rejected as invalid — and whenever the range is valid it also
resets the caret to cell (0,0). -/
theorem clearRange_selection_caret_effects (s : WState) (top count : Int) :
    (clearRange top count s).selecting = false ∧
    (0 ≤ top → 1 ≤ count → top < s.m_lineCount →
      (clearRange top count s).caretPosition = ⟨0, 0⟩) := by
  unfold clearRange
  constructor
  · dsimp only
    split
    · rfl
    · rfl
  · intro h1 h2 h3
    dsimp only
    split
    · omega
    · rfl

/-- Witness for C10 on a concrete valid range. -/
theorem clearRange_selection_caret_effects_witness :
    (clearRange 0 1 sampleState).selecting = false ∧
    (clearRange 0 1 sampleState).caretPosition = ⟨0, 0⟩ :=
  ⟨(clearRange_selection_caret_effects sampleState 0 1).1,
   (clearRange_selection_caret_effects sampleState 0 1).2 (by decide) (by decide)
     (by decide)⟩

/-- Counterexample to C3: `logTextPalette::style` resolves an out-of-range id
to the LAST entry (`styles.last()`), not to entry 0: on a two-entry palette
whose entries differ, looking up id 5 yields entry 1, not entry 0. -/
theorem palette_oob_style_not_entry_zero :
    paletteTwo.styleAt 5 = some ⟨7, 8, 9, 0⟩ ∧
    paletteTwo.styleAt 5 ≠ paletteTwo.styleAt 0 := by decide

/-- C3 (amended): out-of-range style lookups never access out of range, but
the two lookup paths clamp differently: the drawable (activated) style for an
out-of-range id is the style at index 0, while `logTextPalette::style` clamps
to the last entry. -/
theorem style_lookup_oob_resolution (f : QFont) (p : LogPalette) (id id2 : Nat)
    (hida : (ActivatedPalette.ofPalette f p).styles.length ≤ id)
    (hp : p.styles ≠ []) (hidp : p.styles.length ≤ id2) :
    (ActivatedPalette.ofPalette f p).styleAt id =
      (ActivatedPalette.ofPalette f p).styles.get? 0 ∧
    (ActivatedPalette.ofPalette f p).styleAt id ≠ none ∧
    p.styleAt id2 = p.styles.getLast? ∧
    p.styleAt id2 ≠ none := by
  have hlen : (ActivatedPalette.ofPalette f p).styles.length = max 1 p.styles.length := by
    simp [ActivatedPalette.ofPalette]
  refine ⟨?_, ?_, ?_, ?_⟩
  · unfold ActivatedPalette.styleAt
    rw [if_neg (by omega)]
  · unfold ActivatedPalette.styleAt
    rw [if_neg (by omega)]
    intro hnone
    rw [List.get?_eq_none] at hnone
    omega
  · unfold LogPalette.styleAt
    rw [if_pos (by omega)]
  · unfold LogPalette.styleAt
    rw [if_pos (by omega)]
    simp [List.getLast?_isSome.symm, hp]

/-- Witness for C3 at a concrete font, palette and out-of-range id. -/
theorem style_lookup_oob_resolution_witness :
    ((ActivatedPalette.ofPalette sampleFixedFont paletteTwo).styles.length ≤ 5 ∧
      paletteTwo.styles ≠ [] ∧ paletteTwo.styles.length ≤ 5) ∧
    (ActivatedPalette.ofPalette sampleFixedFont paletteTwo).styleAt 5 =
      (ActivatedPalette.ofPalette sampleFixedFont paletteTwo).styles.get? 0 :=
  ⟨⟨by decide, by decide, by decide⟩,
   (style_lookup_oob_resolution sampleFixedFont paletteTwo 5 5 (by decide)
     (by decide) (by decide)).1⟩

/-- Counterexample to C4: on an empty store (`lineCount() = 0`), `item(0)`
clamps the index to `-1` and reads `items[-1]`, and `setLineStyle(0, 0)`
reads `items[0]` with no range check at all — both are out-of-range accesses
(`none`), so the index-taking operations are not all total. -/
theorem index_ops_oob_access_exists :
    itemAt initState 0 = none ∧ setLineStyleM 0 0 initState = none := by decide

/-- C4 (amended): for an index at or beyond `lineCount()`, `length`
returns 0 and `setLinePixmap`/`clearLinePixmap` are no-ops, with no store
access; `item` clamps to the last live item provided the store is non-empty
(and `lineCount` matches the store).  `setLineStyle` is excluded: it indexes
the store unchecked (see the counterexample). -/
theorem index_ops_defensive_clamp (s : WState) (i pid : Int)
    (hinv : s.m_lineCount = (s.items.length : Int)) (hi : s.m_lineCount ≤ i) :
    lengthAt s i = some 0 ∧
    setLinePixmapM i pid s = some s ∧
    clearLinePixmapM i s = some s ∧
    (s.items ≠ [] → itemAt s i = s.items.getLast?) := by
  have hval : validLineNumber s i = false := by
    unfold validLineNumber
    simp only [Bool.and_eq_false_iff, decide_eq_false_iff_not, not_lt, not_le]
    right
    omega
  refine ⟨?_, ?_, ?_, ?_⟩
  · simp [lengthAt, hval]
  · simp [setLinePixmapM, hval]
  · simp [clearLinePixmapM, hval]
  · intro hne
    have hlen : 1 ≤ s.items.length := List.length_pos.mpr hne
    unfold itemAt getItem?
    have h1 : (if i ≥ s.m_lineCount then s.m_lineCount - 1 else i) =
        s.m_lineCount - 1 := if_pos (by omega)
    rw [h1, if_neg (by omega)]
    have htn : (s.m_lineCount - 1).toNat = s.items.length - 1 := by omega
    rw [htn, List.getLast?_eq_get? s.items]

/-- Witness for C4 on a concrete two-line store and index 7. -/
theorem index_ops_defensive_clamp_witness :
    (sampleState.m_lineCount = (sampleState.items.length : Int) ∧
      sampleState.m_lineCount ≤ 7 ∧ sampleState.items ≠ []) ∧
    (lengthAt sampleState 7 = some 0 ∧
      itemAt sampleState 7 = sampleState.items.getLast?) :=
  ⟨⟨by decide, by decide, by decide⟩,
   ⟨(index_ops_defensive_clamp sampleState 7 3 (by decide) (by decide)).1,
    (index_ops_defensive_clamp sampleState 7 3 (by decide) (by decide)).2.2.2
      (by decide)⟩⟩

/-- Counterexample to C9: with stable metrics (character width 8, line height
10) but the vertical scrollbar at 10, the round trip maps the valid cell
(0,0) to cell (1,0): `cellToPoint` ignores the scroll offsets that
`pointToCell` adds in. -/
theorem cell_point_roundtrip_fails_nonzero_scroll :
    pointToCell geomScrolled (cellToPoint geomScrolled ⟨0, 0⟩) ≠ ⟨0, 0⟩ := by
  decide

/-- C9 (amended): the round trip `pointToCell ∘ cellToPoint` is the identity
on valid in-bounds cells given stable positive metrics AND both scrollbars at
position 0 (the two maps live on opposite sides of the scroll translation). -/
theorem cell_point_roundtrip_zero_scroll (g : GeomState) (c : Cell)
    (hw : 0 < g.m_characterWidth) (hh : 0 < g.m_textLineHeight)
    (hg : 0 ≤ g.m_gutterOffset) (hv : g.vScrollValue = 0)
    (hhs : g.hScrollValue = 0) (hl0 : 0 ≤ c.line) (hlc : c.line < g.m_lineCount)
    (hc : 0 ≤ c.col) : pointToCell g (cellToPoint g c) = c := by
  cases c with
  | mk l col =>
    unfold pointToCell cellToPoint yToLine xToCharColumn inTheGutter cppDiv
    simp only [hv, hhs, Cell.mk.injEq]
    constructor
    · rw [zero_add, max_eq_left (mul_nonneg hl0 hh.le),
        Int.mul_tdiv_cancel l hh.ne']
      exact min_eq_left hlc.le
    · rw [if_pos hw.ne']
      have hxx : 0 ≤ col * g.m_characterWidth := mul_nonneg hc hw.le
      have hx : ¬ (col * g.m_characterWidth + g.m_gutterOffset <
          g.m_gutterOffset) := by omega
      rw [if_neg (by simpa using hx)]
      have hsub : col * g.m_characterWidth + g.m_gutterOffset -
          g.m_gutterOffset = col * g.m_characterWidth := by ring
      rw [hsub, Int.mul_tdiv_cancel col hw.ne', add_zero]

/-- Witness for C9 at a concrete zero-scroll geometry and in-bounds cell. -/
theorem cell_point_roundtrip_zero_scroll_witness :
    pointToCell ⟨8, 10, 2, 0, 0, 3⟩ (cellToPoint ⟨8, 10, 2, 0, 0, 3⟩ ⟨2, 5⟩) =
      ⟨2, 5⟩ :=
  cell_point_roundtrip_zero_scroll ⟨8, 10, 2, 0, 0, 3⟩ ⟨2, 5⟩ (by decide)
    (by decide) (by decide) rfl rfl (by decide) (by decide) (by decide)

set_option maxRecDepth 100000

/-- C1: evaluation at the failing input.  With a cap of 100 (slacked ceiling
110), the 111th `append` triggers `trimLines()`, which resets `m_lineCount`
to `items.size()`; `append` then executes `return m_lineCount++` anyway, so
`lineCount()` reports 101 while the store holds 100 items — the claimed
invariant `lineCount() = number of live items` is broken by the code. -/
theorem append_trim_lineCount_desync :
    scenario111.m_lineCount = 101 ∧ scenario111.items.length = 100 := by decide

/-- Counterexample to C2: appending 115 lines under cap 100 (slack 10) does
NOT leave 100 lines with one `trimmed(15)`: the single trim fires during the
111th append and removes 11 lines, the store ends with 104 items
(`lineCount()` reporting 105), and the oldest survivor is original index 11. -/
theorem trim_scenario_claim_false :
    scenario115.trimmedLog ≠ [15] ∧ scenario115.m_lineCount ≠ 100 ∧
    (scenario115.items.head?.map LItem.styleId) ≠ some 15 := by decide

/-- C2 (amended): with cap 100 (slacked ceiling 110), appending 115 lines
triggers exactly one `trimmed(n)` notification with n = 11 (during the 111th
append, when the pre-append count reaches the slacked ceiling), the store
ends holding 104 items while `lineCount()` reports 105 (see C1's
`m_lineCount++` defect), and the oldest surviving line is the one originally
appended at index 11. -/
theorem trim_scenario_actual :
    scenario115.trimmedLog = [11] ∧ scenario115.items.length = 104 ∧
    scenario115.m_lineCount = 105 ∧
    (scenario115.items.head?.map LItem.styleId) = some 11 := by decide

/-- C7: on a non-empty buffer, `selectAll` sets the selection region to span
cell (0,0) through cell (lineCount, 0), and `selectedText()` then returns
every line in order, each followed by a newline — exactly
`toPlainText('\n')`. -/
theorem selectAll_selectedText_full_buffer (s : WState)
    (hinv : s.m_lineCount = (s.items.length : Int)) (hne : s.items ≠ []) :
    (selectAllM s).selecting = true ∧
    (selectAllM s).selectTop = ⟨0, 0⟩ ∧
    (selectAllM s).selectBottom = ⟨s.m_lineCount, 0⟩ ∧
    selectedText (selectAllM s) = toPlainText '\n' s := by
  have hL : 1 ≤ s.items.length := List.length_pos.mpr hne
  have hne0 : s.m_lineCount ≠ 0 := by omega
  have hsel : selectAllM s =
      { s with selecting := true, selectTop := ⟨0, 0⟩,
               selectBottom := ⟨s.m_lineCount, 0⟩ } := by
    unfold selectAllM
    rw [if_pos hne0]
  refine ⟨by rw [hsel], by rw [hsel], by rw [hsel], ?_⟩
  rw [hsel]
  unfold selectedText toPlainText
  simp only [Bool.not_true, Bool.false_eq_true, if_false, min_self]
  rw [if_neg (by omega : ¬ s.m_lineCount < (0 : Int))]
  have hq : (0 : Int) < (s.items.length : Int) := by exact_mod_cast hL
  have hLL : ¬ (s.m_lineCount < (s.items.length : Int)) := by omega
  have hlt0 : ¬ (s.m_lineCount < (0 : Int)) := by omega
  have h0ne : ¬ ((0 : Int) = s.m_lineCount) := by omega
  simp [hq, hLL, hlt0, h0ne, List.take_length, List.drop_zero, lt_irrefl]

/-- Witness for C7 on a concrete two-line buffer. -/
theorem selectAll_selectedText_full_buffer_witness :
    (sampleState.m_lineCount = (sampleState.items.length : Int) ∧
      sampleState.items ≠ []) ∧
    selectedText (selectAllM sampleState) = toPlainText '\n' sampleState :=
  ⟨⟨by decide, by decide⟩,
   (selectAll_selectedText_full_buffer sampleState (by decide) (by decide)).2.2.2⟩

/-- The forward scan loops of the plain-string and the literal-pattern find
overloads compute identically when handed the same list, line counter and
start column. -/
theorem fwdScan_plain_eq_re (cs : Bool) (str : List Char) :
    ∀ (l : List LItem) (ln col : Int),
      fwdScanPlain cs str l ln col = fwdScanRe cs str l ln col := by
  intro l
  induction l with
  | nil => intro ln col; rfl
  | cons h t ih =>
    intro ln col
    unfold fwdScanPlain fwdScanRe
    simp only [ih]

/-- Counterexample to C6: searching forward for the literal "xyz" from
position (1,0) on the buffer ["xyz", "abc"], the plain-string overload finds
nothing (it scans only from the start line on), while the pattern overload
reports success — its loop walks the item list from the FIRST line while
labelling matches with line numbers counted from the start line.  (The
backward loops differ too: the plain overload stops before line 0, the
pattern overload scans line 0.) -/
theorem find_overloads_disagree :
    (findPlain ['x', 'y', 'z'] (some ⟨1, 0⟩) true true overloadState).ok = false ∧
    (findPatternLit ['x', 'y', 'z'] (some ⟨1, 0⟩) true true overloadState).ok
      = true := by decide

/-- C6 (amended): the two overloads agree — same success flag, same state
(caret, selection), same reported position — whenever the search is forward
and the start position lies on line 0 (there the pattern loop's
scan-from-first-line defect is invisible). -/
theorem find_overloads_agree_from_line_zero (s : WState) (str : List Char)
    (cs : Bool) (a : Cell) (h : a.line = 0) :
    findPlain str (some a) cs true s = findPatternLit str (some a) cs true s := by
  unfold findPlain findPatternLit
  by_cases h0 : s.m_lineCount = 0
  · rw [if_pos h0, if_pos h0]
  · rw [if_neg h0, if_neg h0]
    cases hp : prepareFind s true (some a) with
    | none => rfl
    | some pos =>
      have hpl : pos.line = 0 := by
        unfold prepareFind at hp
        by_cases hv : validLineNumber s a.line
        · simp only [hv, if_true, Option.map_some', Option.some.injEq] at hp
          split at hp <;> rw [← hp]
          · exact h
          · exact h
        · simp [hv] at hp
      simp only [hpl, Int.toNat_zero, List.drop_zero, fwdScan_plain_eq_re,
        if_true]

/-- Witness for C6 at a concrete buffer and start cell on line 0. -/
theorem find_overloads_agree_from_line_zero_witness :
    (⟨0, 0⟩ : Cell).line = 0 ∧
    findPlain ['c'] (some ⟨0, 0⟩) true true sampleState =
      findPatternLit ['c'] (some ⟨0, 0⟩) true true sampleState :=
  ⟨rfl, find_overloads_agree_from_line_zero sampleState ['c'] true ⟨0, 0⟩ rfl⟩

/-- Membership in `lineOccs` is exactly an in-range prefix match. -/
theorem mem_lineOccs (cs : Bool) (str t : List Char) (c : Nat) :
    c ∈ lineOccs cs str t ↔ c ≤ t.length ∧ prefixMatch cs str (t.drop c) = true := by
  unfold lineOccs
  simp [List.mem_filter, List.mem_range, Nat.lt_succ_iff]

/-- Membership in `occListAux` in terms of item lookup. -/
theorem mem_occListAux (cs : Bool) (str : List Char) :
    ∀ (l : List LItem) (base ln c : Nat),
      (ln, c) ∈ occListAux cs str l base ↔
        ∃ k it, l.get? k = some it ∧ ln = base + k ∧ c ∈ lineOccs cs str it.text := by
  intro l
  induction l with
  | nil =>
    intro base ln c
    simp [occListAux]
  | cons hd tl ih =>
    intro base ln c
    unfold occListAux
    rw [List.mem_append, List.mem_map, ih]
    constructor
    · rintro (⟨c', hc', heq⟩ | ⟨k, it, h1, h2, h3⟩)
      · injection heq with h4 h5
        exact ⟨0, hd, rfl, by omega, by rw [← h5]; exact hc'⟩
      · exact ⟨k + 1, it, h1, by omega, h3⟩
    · rintro ⟨k, it, h1, h2, h3⟩
      cases k with
      | zero =>
        left
        have hit : hd = it := by simpa using h1
        refine ⟨c, hit ▸ h3, ?_⟩
        have hbl : ln = base := by omega
        rw [hbl]
      | succ k =>
        right
        exact ⟨k, it, h1, by omega, h3⟩

/-- A prefix match bounds the needle's length by the hay's. -/
theorem prefixMatch_length_le (cs : Bool) :
    ∀ (str t : List Char), prefixMatch cs str t = true → str.length ≤ t.length := by
  intro str
  induction str with
  | nil => intro t _; simp
  | cons a as ih =>
    intro t h
    cases t with
    | nil => simp [prefixMatch] at h
    | cons b bs =>
      simp only [prefixMatch, Bool.and_eq_true] at h
      have := ih bs h.2
      simp only [List.length_cons]
      omega

/-- A non-empty needle can only match strictly inside the hay. -/
theorem prefixMatch_ne_nil_lt (cs : Bool) (a : Char) (as t : List Char) (j : Nat)
    (h : prefixMatch cs (a :: as) (t.drop j) = true) : j < t.length := by
  by_contra hj
  rw [List.drop_eq_nil_of_le (by omega)] at h
  simp [prefixMatch] at h

/-- `scanFrom` finds `c` when `c` is the first index at or after `i`
satisfying `p` and lies within the fuel window. -/
theorem scanFrom_eq_some (p : Nat → Bool) :
    ∀ (fuel i c : Nat), i ≤ c → c < i + fuel → p c = true →
      (∀ j, i ≤ j → j < c → p j = false) → scanFrom p i fuel = some c := by
  intro fuel
  induction fuel with
  | zero => intro i c h1 h2; omega
  | succ n ih =>
    intro i c h1 h2 h3 h4
    unfold scanFrom
    rcases Nat.eq_or_lt_of_le h1 with heq | hlt
    · rw [heq, h3]
      simp
    · rw [h4 i le_rfl hlt]
      exact ih (i + 1) c hlt (by omega) h3 (fun j hj1 hj2 => h4 j (by omega) hj2)

/-- `scanFrom` fails when nothing in its window satisfies `p`. -/
theorem scanFrom_eq_none (p : Nat → Bool) :
    ∀ (fuel i : Nat), (∀ j, i ≤ j → j < i + fuel → p j = false) →
      scanFrom p i fuel = none := by
  intro fuel
  induction fuel with
  | zero => intro i _; rfl
  | succ n ih =>
    intro i h
    unfold scanFrom
    rw [h i le_rfl (by omega)]
    exact ih (i + 1) (fun j hj1 hj2 => h j (by omega) (by omega))

/-- `indexOf` fails on a line with no occurrence at all, from any start. -/
theorem qIndexOf_eq_none_of_no_match (str hay : List Char) (a : Int) (cs : Bool)
    (h : ∀ j : Nat, prefixMatch cs str (hay.drop j) = false) :
    qIndexOf str hay a cs = -1 := by
  unfold qIndexOf
  dsimp only
  rw [scanFrom_eq_none _ _ _ (fun j _ _ => h j)]
  split <;> split <;> rfl

/-- `indexOf` from `a ≤ c` returns `c` when `c` is the line's only
occurrence. -/
theorem qIndexOf_eq_of_unique (str hay : List Char) (a : Int) (cs : Bool) (c : Nat)
    (h0 : 0 ≤ a) (hfc : a ≤ (c : Int))
    (hc : prefixMatch cs str (hay.drop c) = true)
    (hcl : c ≤ hay.length)
    (huniq : ∀ j : Nat, prefixMatch cs str (hay.drop j) = true → j = c) :
    qIndexOf str hay a cs = (c : Int) := by
  unfold qIndexOf
  dsimp only
  rw [if_neg (by omega : ¬ a < 0)]
  rw [if_neg (by omega : ¬ a > (hay.length : Int))]
  rw [scanFrom_eq_some _ _ _ c (by omega) (by omega) hc
    (fun j hj1 hj2 => by
      by_contra hb
      rw [Bool.not_eq_false] at hb
      exact absurd (huniq j hb) (by omega))]

/-- `indexOf` from strictly after the line's only occurrence fails. -/
theorem qIndexOf_eq_none_of_unique_lt (str hay : List Char) (a : Int) (cs : Bool)
    (c : Nat) (h0 : 0 ≤ a)
    (huniq : ∀ j : Nat, prefixMatch cs str (hay.drop j) = true → j = c)
    (hlt : (c : Int) < a) :
    qIndexOf str hay a cs = -1 := by
  unfold qIndexOf
  dsimp only
  rw [if_neg (by omega : ¬ a < 0)]
  rw [scanFrom_eq_none _ _ _ (fun j hj1 hj2 => by
    by_contra hb
    rw [Bool.not_eq_false] at hb
    have := huniq j hb
    omega)]
  split
  · rfl
  · rfl

/-- The forward scan fails when every scanned line reports no match. -/
theorem fwdScanPlain_eq_none (cs : Bool) (str : List Char) :
    ∀ (l : List LItem) (ln col : Int),
      (∀ (k : Nat) (it : LItem), l.get? k = some it →
        qIndexOf str it.text (if k = 0 then col else 0) cs = -1) →
      fwdScanPlain cs str l ln col = none := by
  intro l
  induction l with
  | nil => intro ln col _; rfl
  | cons hd tl ih =>
    intro ln col h
    unfold fwdScanPlain
    have h0 : qIndexOf str hd.text col cs = -1 := by simpa using h 0 hd rfl
    rw [h0]
    simp only [ne_eq, not_true_eq_false, if_false, reduceIte]
    exact ih (ln + 1) 0 (fun k it hk => by simpa using h (k + 1) it (by simpa using hk))

/-- The forward scan reports the k-th line's hit when all earlier scanned
lines miss. -/
theorem fwdScanPlain_eq_some (cs : Bool) (str : List Char) :
    ∀ (l : List LItem) (ln col : Int) (k : Nat) (it : LItem) (c : Nat),
      l.get? k = some it →
      qIndexOf str it.text (if k = 0 then col else 0) cs = (c : Int) →
      (∀ (j : Nat) (it' : LItem), j < k → l.get? j = some it' →
        qIndexOf str it'.text (if j = 0 then col else 0) cs = -1) →
      fwdScanPlain cs str l ln col = some (ln + k, (c : Int)) := by
  intro l
  induction l with
  | nil => intro ln col k it c hk; simp at hk
  | cons hd tl ih =>
    intro ln col k it c hk hq hprev
    unfold fwdScanPlain
    cases k with
    | zero =>
      have hit : hd = it := by simpa using hk
      have hq' : qIndexOf str it.text col cs = (c : Int) := by simpa using hq
      have hcne : (c : Int) ≠ -1 := by omega
      simp only [hit, hq', ne_eq, hcne, not_false_eq_true, if_true, reduceIte]
      simp
    | succ k =>
      have h0 : qIndexOf str hd.text col cs = -1 := by
        simpa using hprev 0 hd (by omega) rfl
      rw [h0]
      simp only [ne_eq, not_true_eq_false, if_false, reduceIte]
      have hrec := ih (ln + 1) 0 k it c (by simpa using hk) (by simpa using hq)
        (fun j it' hj hjg => by
          simpa using hprev (j + 1) it' (by omega) (by simpa using hjg))
      rw [hrec]
      have hln : ln + 1 + (k : Int) = ln + ((k + 1 : Nat) : Int) := by
        push_cast
        ring
      rw [hln]

/-- Selection updates leave the store, the line count and the caret alone. -/
theorem setSelection2_preserves (a b : Cell) (s : WState) :
    (setSelection2 a b s).items = s.items ∧
    (setSelection2 a b s).m_lineCount = s.m_lineCount ∧
    (setSelection2 a b s).caretPosition = s.caretPosition := by
  unfold setSelection2
  dsimp only
  split
  · exact ⟨rfl, rfl, rfl⟩
  · split
    · exact ⟨rfl, rfl, rfl⟩
    · exact ⟨rfl, rfl, rfl⟩

/-- Counterexample to C5: on the one-line buffer "ba", which contains exactly
one occurrence of the search string "a", a forward find from (0,0) succeeds
and puts the caret at (0,2); the subsequent forward find resumes from the
caret, but `prepareFind` clamps column 2 to the line's last column 1 and the
same occurrence is found AGAIN (returns true), contradicting the claimed
impossibility of duplicate matches. -/
theorem find_forward_rematch_possible :
    (findPlain ['a'] (some ⟨0, 0⟩) true true rematchState).ok = true ∧
    (findPlain ['a'] (some ⟨0, 0⟩) true true rematchState).st.caretPosition
      = ⟨0, 2⟩ ∧
    (findPlain ['a'] none true true
      (findPlain ['a'] (some ⟨0, 0⟩) true true rematchState).st).ok = true := by
  decide

/-- C5 (amended): for a buffer whose occurrence list of `str` is exactly
[(ln, c)], a forward find from a valid position at or before the occurrence
returns true and leaves the caret immediately after the match, and a
subsequent forward find from the caret returns false — PROVIDED the search
string has length at least 2 or the match does not extend to the very end of
its line (a length-1 string matching a line's final character is re-found,
because the caret-column clamp in `prepareFind` re-enters the match; see the
counterexample). -/
theorem find_unique_forward_no_rematch (s : WState) (cs : Bool) (str : List Char)
    (ln c : Nat) (start : Cell)
    (hinv : s.m_lineCount = (s.items.length : Int))
    (hocc : occList cs str s.items = [(ln, c)])
    (hsl : 0 ≤ start.line) (hsc : 0 ≤ start.col)
    (horder : start.line < (ln : Int) ∨ (start.line = (ln : Int) ∧ start.col ≤ (c : Int)))
    (hguard : 2 ≤ str.length ∨ c + str.length < (textOfIdx s.items ln).length) :
    (findPlain str (some start) cs true s).ok = true ∧
    (findPlain str (some start) cs true s).st.caretPosition =
      ⟨(ln : Int), (c : Int) + (str.length : Int)⟩ ∧
    (findPlain str none cs true (findPlain str (some start) cs true s).st).ok
      = false := by
  -- unpack the unique occurrence
  have hmem : (ln, c) ∈ occList cs str s.items := by rw [hocc]; simp
  have huniqAll : ∀ l j : Nat, (l, j) ∈ occList cs str s.items → l = ln ∧ j = c := by
    intro l j hm
    rw [hocc] at hm
    simp only [List.mem_singleton, Prod.mk.injEq] at hm
    exact hm
  obtain ⟨k0, itLn, hget0, hln0, hcmem⟩ := (mem_occListAux cs str s.items 0 ln c).mp hmem
  have hk0 : k0 = ln := by omega
  have hgetLn : s.items.get? ln = some itLn := by rw [← hk0]; exact hget0
  obtain ⟨hcle, hcpm⟩ := (mem_lineOccs cs str itLn.text c).mp hcmem
  have hlnlt : ln < s.items.length := by
    by_contra hx
    rw [List.get?_eq_none.mpr (by omega)] at hgetLn
    simp at hgetLn
  have htxt : textOfIdx s.items ln = itLn.text := by
    unfold textOfIdx
    rw [hgetLn]
    rfl
  have hstr1 : 1 ≤ str.length := by
    by_contra hx
    have hnil : str = [] := by
      cases str with
      | nil => rfl
      | cons a as => simp at hx
    rcases hguard with h2 | hlt
    · omega
    · rw [htxt] at hlt
      have hm1 : (ln, c + 1) ∈ occList cs str s.items := by
        refine (mem_occListAux cs str s.items 0 ln (c + 1)).mpr
          ⟨ln, itLn, hgetLn, by omega, (mem_lineOccs cs str itLn.text (c + 1)).mpr
            ⟨by omega, by rw [hnil]; rfl⟩⟩
      have := (huniqAll ln (c + 1) hm1).2
      omega
  have hfit : c + str.length ≤ itLn.text.length := by
    have := prefixMatch_length_le cs str _ hcpm
    rw [List.length_drop] at this
    omega
  obtain ⟨sa, sas, hstrC⟩ : ∃ a as, str = a :: as := by
    cases str with
    | nil => simp at hstr1
    | cons a as => exact ⟨a, as, rfl⟩
  have huniqLn : ∀ j : Nat, prefixMatch cs str (itLn.text.drop j) = true → j = c := by
    intro j hj
    have hjlt : j < itLn.text.length := by
      rw [hstrC] at hj
      exact prefixMatch_ne_nil_lt cs sa sas _ j hj
    have hm : (ln, j) ∈ occList cs str s.items :=
      (mem_occListAux cs str s.items 0 ln j).mpr
        ⟨ln, itLn, hgetLn, by omega,
          (mem_lineOccs cs str itLn.text j).mpr ⟨by omega, hj⟩⟩
    exact (huniqAll ln j hm).2
  have hnoLine : ∀ (l : Nat) (it' : LItem), l ≠ ln → s.items.get? l = some it' →
      ∀ j : Nat, prefixMatch cs str (it'.text.drop j) = false := by
    intro l it' hl hg j
    by_contra hb
    rw [Bool.not_eq_false] at hb
    have hjlt : j < it'.text.length := by
      rw [hstrC] at hb
      exact prefixMatch_ne_nil_lt cs sa sas _ j hb
    have hm : (l, j) ∈ occList cs str s.items :=
      (mem_occListAux cs str s.items 0 l j).mpr
        ⟨l, it', hg, by omega, (mem_lineOccs cs str it'.text j).mpr ⟨by omega, hb⟩⟩
    exact hl (huniqAll l j hm).1
  have hlc0 : ¬ s.m_lineCount = 0 := by omega
  have hslln : start.line ≤ (ln : Int) := by
    rcases horder with h | ⟨h, _⟩ <;> omega
  have hvalid : validLineNumber s start.line = true := by
    unfold validLineNumber
    simp only [Bool.and_eq_true, decide_eq_true_eq]
    omega
  -- prepareFind for the first call
  obtain ⟨pc, hpr, hpcB⟩ : ∃ pc : Int, prepareFind s true (some start) =
      some ⟨start.line, pc⟩ ∧ (start.line = (ln : Int) → pc = start.col) := by
    unfold prepareFind
    simp only [hvalid, if_true, Option.map_some']
    by_cases hcl : start.col ≥ ((textOfIdx s.items start.line.toNat).length : Int)
    · refine ⟨((textOfIdx s.items start.line.toNat).length : Int) - 1,
        by rw [if_pos hcl], ?_⟩
      intro hB
      exfalso
      have hdn : start.line.toNat = ln := by omega
      rw [hdn, htxt] at hcl
      rcases horder with h | ⟨_, h⟩
      · omega
      · omega
    · exact ⟨start.col, by rw [if_neg hcl], fun _ => rfl⟩
  -- the forward scan of the first call finds exactly (ln, c)
  have hscan : fwdScanPlain cs str (s.items.drop start.line.toNat) start.line pc =
      some ((ln : Int), (c : Int)) := by
    have happ := fwdScanPlain_eq_some cs str (s.items.drop start.line.toNat)
      start.line pc (ln - start.line.toNat) itLn c
      (by
        rw [List.get?_drop]
        have hx : start.line.toNat + (ln - start.line.toNat) = ln := by omega
        rw [hx]
        exact hgetLn)
      (by
        by_cases hkz : ln - start.line.toNat = 0
        · have hB : start.line = (ln : Int) := by omega
          rw [if_pos hkz, hpcB hB]
          refine qIndexOf_eq_of_unique str itLn.text start.col cs c hsc ?_ hcpm hcle huniqLn
          rcases horder with h | ⟨_, h⟩
          · omega
          · omega
        · rw [if_neg hkz]
          exact qIndexOf_eq_of_unique str itLn.text 0 cs c le_rfl (by omega) hcpm hcle huniqLn)
      (by
        intro j it' hj hg
        have hgl : s.items.get? (start.line.toNat + j) = some it' := by
          rw [← List.get?_drop]
          exact hg
        exact qIndexOf_eq_none_of_no_match str it'.text _ cs
          (hnoLine (start.line.toNat + j) it' (by omega) hgl))
    rw [happ]
    have hx : start.line + ((ln - start.line.toNat : Nat) : Int) = (ln : Int) := by omega
    rw [hx]
  -- the first find in terms of findApplyMatch
  have hF1 : findPlain str (some start) cs true s =
      findApplyMatch true str.length ((ln : Int), (c : Int)) (some start) s := by
    unfold findPlain
    rw [if_neg hlc0, hpr]
    dsimp only
    rw [hscan]
    rfl
  -- the state after the first find
  have hcaret : (findApplyMatch true str.length ((ln : Int), (c : Int))
      (some start) s).st.caretPosition = ⟨(ln : Int), (c : Int) + (str.length : Int)⟩ := by
    unfold findApplyMatch
    dsimp only
    exact (setSelection2_preserves _ _ _).2.2
  have hitems : (findApplyMatch true str.length ((ln : Int), (c : Int))
      (some start) s).st.items = s.items := by
    unfold findApplyMatch
    dsimp only
    exact (setSelection2_preserves _ _ _).1
  have hcount : (findApplyMatch true str.length ((ln : Int), (c : Int))
      (some start) s).st.m_lineCount = s.m_lineCount := by
    unfold findApplyMatch
    dsimp only
    exact (setSelection2_preserves _ _ _).2.1
  refine ⟨by rw [hF1]; rfl, by rw [hF1]; exact hcaret, ?_⟩
  -- the second find starts at the caret and finds nothing
  rw [hF1]
  set st := (findApplyMatch true str.length ((ln : Int), (c : Int))
    (some start) s).st with hstdef
  have hlc0' : ¬ st.m_lineCount = 0 := by rw [hcount]; exact hlc0
  have hvalid' : validLineNumber st st.caretPosition.line = true := by
    unfold validLineNumber
    rw [hcaret, hcount]
    simp only [Bool.and_eq_true, decide_eq_true_eq]
    constructor
    · omega
    · omega
  have htxt' : textOfIdx st.items ((ln : Int)).toNat = itLn.text := by
    rw [hitems]
    have hx : ((ln : Int)).toNat = ln := by omega
    rw [hx, htxt]
  have hvalid2 : validLineNumber st (ln : Int) = true := by
    unfold validLineNumber
    rw [hcount]
    simp only [Bool.and_eq_true, decide_eq_true_eq]
    constructor
    · omega
    · omega
  obtain ⟨qc, hpr2, hqgt, hq0⟩ : ∃ qc : Int, prepareFind st true none =
      some ⟨(ln : Int), qc⟩ ∧ (c : Int) < qc ∧ 0 ≤ qc := by
    unfold prepareFind
    rw [hcaret]
    dsimp only
    simp only [hvalid2, if_true, Option.map_some']
    rw [htxt']
    by_cases hclamp : ((c : Int) + (str.length : Int)) ≥ (itLn.text.length : Int)
    · refine ⟨(itLn.text.length : Int) - 1, by rw [if_pos hclamp], ?_, by omega⟩
      rcases hguard with h2 | hlt
      · omega
      · rw [htxt] at hlt
        omega
    · exact ⟨(c : Int) + (str.length : Int), by rw [if_neg hclamp], by omega,
        by omega⟩
  have hscan2 : fwdScanPlain cs str (st.items.drop ((ln : Int)).toNat)
      ((ln : Int)) qc = none := by
    apply fwdScanPlain_eq_none
    intro k it hk
    rw [hitems] at hk
    have hx : ((ln : Int)).toNat = ln := by omega
    rw [hx, List.get?_drop] at hk
    by_cases hkz : k = 0
    · subst hkz
      have hit : itLn = it := by
        rw [Nat.add_zero, hgetLn] at hk
        injection hk
      rw [if_pos rfl, ← hit]
      exact qIndexOf_eq_none_of_unique_lt str itLn.text qc cs c hq0 huniqLn hqgt
    · rw [if_neg hkz]
      exact qIndexOf_eq_none_of_no_match str it.text 0 cs
        (hnoLine (ln + k) it (by omega) hk)
  unfold findPlain
  rw [if_neg hlc0', hpr2]
  dsimp only
  rw [hscan2]
  rfl

/-- Witness for C5 at a concrete buffer, search string and start position. -/
theorem find_unique_forward_no_rematch_witness :
    (findWitState.m_lineCount = (findWitState.items.length : Int) ∧
      occList true ['x'] findWitState.items = [(0, 0)]) ∧
    ((findPlain ['x'] (some ⟨0, 0⟩) true true findWitState).ok = true ∧
      (findPlain ['x'] none true true
        (findPlain ['x'] (some ⟨0, 0⟩) true true findWitState).st).ok = false) :=
  ⟨⟨by decide, by decide⟩,
   ⟨(find_unique_forward_no_rematch findWitState true ['x'] 0 0 ⟨0, 0⟩ (by decide)
      (by decide) (by decide) (by decide) (by decide) (by decide)).1,
    (find_unique_forward_no_rematch findWitState true ['x'] 0 0 ⟨0, 0⟩ (by decide)
      (by decide) (by decide) (by decide) (by decide) (by decide)).2.2⟩⟩
